import Mathlib

/-
Verification development for the cv_model repository (base_model.py).

The development shallowly embeds the tensor computations of base_model.py
over the real numbers.  Because several claims are about the propagation of
non-numeric values (NaN, infinities) through masked softmax normalization,
scalar values inside the graph-attention stage are modelled by the type FV
below: a real number, a signed infinity, or NaN, with IEEE-754-style
arithmetic.  Purely real-valued parts of the pipeline (cosine similarity,
L2 normalization, the focal loss) are modelled directly over the reals.

Learned parameters (weights, biases, batch-norm statistics) are inputs of
every embedded forward function, exactly as they are state of the PyTorch
modules.  Third-party submodules whose internals live outside this
repository (the torchvision resnet backbone stages, bilinear interpolation,
torch_geometric GCNConv) enter the model as function parameters applied at
the same place the source calls them; everything written in base_model.py
itself is embedded operation by operation.
-/

open scoped Classical

noncomputable section

/-- Scalar values of the tensor engine: a finite real, a signed infinity,
or NaN.  This is the codomain used to model the masked-softmax pipeline of
WeightedMultiHeadGAT.forward, where masked_fill writes negative infinity
and an all-masked row produces NaN under softmax. -/
inductive FV where
  | fin (r : ℝ)
  | pinf
  | ninf
  | nan

namespace FV

/-- IEEE-style addition: NaN absorbs, opposite infinities give NaN. -/
def add : FV → FV → FV
  | fin a, fin b => fin (a + b)
  | fin _, pinf => pinf
  | fin _, ninf => ninf
  | pinf, fin _ => pinf
  | ninf, fin _ => ninf
  | pinf, pinf => pinf
  | ninf, ninf => ninf
  | pinf, ninf => nan
  | ninf, pinf => nan
  | nan, _ => nan
  | _, nan => nan

/-- IEEE-style multiplication: NaN absorbs, infinity times zero gives NaN,
infinity times a nonzero finite value gives a signed infinity. -/
def mul : FV → FV → FV
  | fin a, fin b => fin (a * b)
  | fin a, pinf => if 0 < a then pinf else if a < 0 then ninf else nan
  | fin a, ninf => if 0 < a then ninf else if a < 0 then pinf else nan
  | pinf, fin b => if 0 < b then pinf else if b < 0 then ninf else nan
  | ninf, fin b => if 0 < b then ninf else if b < 0 then pinf else nan
  | pinf, pinf => pinf
  | ninf, ninf => pinf
  | pinf, ninf => ninf
  | ninf, pinf => ninf
  | nan, _ => nan
  | _, nan => nan

/-- IEEE-style division, as used by softmax: finite/finite is ordinary
division unless the denominator is zero, where 0/0 is NaN and x/0 is a
signed infinity; anything by NaN is NaN. -/
def div : FV → FV → FV
  | fin a, fin b =>
      if b = 0 then
        (if a = 0 then nan else if 0 < a then pinf else ninf)
      else fin (a / b)
  | fin _, pinf => fin 0
  | fin _, ninf => fin 0
  | pinf, fin b => if 0 ≤ b then pinf else ninf
  | ninf, fin b => if 0 ≤ b then ninf else pinf
  | pinf, pinf => nan
  | pinf, ninf => nan
  | ninf, pinf => nan
  | ninf, ninf => nan
  | nan, _ => nan
  | _, nan => nan

/-- Exponential: exp(-inf) = 0, exp(+inf) = +inf, exp(NaN) = NaN. -/
def exp : FV → FV
  | fin r => fin (Real.exp r)
  | pinf => pinf
  | ninf => fin 0
  | nan => nan

/-- Square root on the model values; only ever applied to nonnegative
finite reals in this development (variances plus a positive epsilon). -/
def sqrtv : FV → FV
  | fin r => fin (Real.sqrt r)
  | pinf => pinf
  | ninf => nan
  | nan => nan

/-- Strict positivity test, false on NaN (IEEE comparison semantics). -/
def isPos : FV → Bool
  | fin r => if 0 < r then true else false
  | pinf => true
  | ninf => false
  | nan => false

/-- F.leaky_relu with negative slope a: x where x is positive, a * x
otherwise.  On NaN the comparison is false and NaN * a = NaN. -/
def leakyRelu (a : ℝ) (x : FV) : FV :=
  if x.isPos then x else x.mul (fin a)

/-- ReLU, max(x, 0); used between the GCN classifier layers. -/
def relu : FV → FV
  | fin r => fin (max r 0)
  | pinf => pinf
  | ninf => fin 0
  | nan => nan

/-- Left fold summation of a list of model values starting from 0,
modelling torch.sum / einsum contractions. -/
def sumL : List FV → FV
  | [] => fin 0
  | x :: xs => x.add (sumL xs)

/-- A value is finite when it is the embedding of a real number. -/
def IsFin (x : FV) : Prop := ∃ r : ℝ, x = fin r

theorem add_fin (a b : ℝ) : (fin a).add (fin b) = fin (a + b) := rfl

theorem mul_fin (a b : ℝ) : (fin a).mul (fin b) = fin (a * b) := rfl

theorem nan_add (x : FV) : nan.add x = nan := by cases x <;> rfl

theorem add_nan (x : FV) : x.add nan = nan := by cases x <;> rfl

theorem nan_mul (x : FV) : nan.mul x = nan := by cases x <;> rfl

theorem mul_nan (x : FV) : x.mul nan = nan := by cases x <;> rfl

theorem exp_fin (r : ℝ) : (fin r).exp = fin (Real.exp r) := rfl

theorem div_fin (a b : ℝ) (hb : b ≠ 0) :
    (fin a).div (fin b) = fin (a / b) := by
  simp [div, hb]

theorem leakyRelu_fin (a r : ℝ) :
    leakyRelu a (fin r) = fin (if 0 < r then r else r * a) := by
  by_cases h : 0 < r <;> simp [leakyRelu, isPos, mul, h]

theorem leakyRelu_ninf (a : ℝ) : leakyRelu a ninf = ninf.mul (fin a) := by
  simp [leakyRelu, isPos]

/-- Summing the pointwise real embedding of a finite family gives the
embedding of the real sum. -/
theorem sumL_ofFn_fin {n : ℕ} (f : Fin n → ℝ) :
    sumL (List.ofFn fun k => fin (f k)) = fin (∑ k, f k) := by
  induction n with
  | zero => simp [sumL]
  | succ m ih =>
      rw [List.ofFn_succ, Fin.sum_univ_succ]
      simp [sumL, ih, add_fin]

/-- A sum of finite values is finite. -/
theorem sumL_ofFn_isFin {n : ℕ} (f : Fin n → FV) (h : ∀ k, IsFin (f k)) :
    IsFin (sumL (List.ofFn f)) := by
  have hg : f = fun k => fin (Classical.choose (h k)) :=
    funext fun k => Classical.choose_spec (h k)
  rw [hg, sumL_ofFn_fin]
  exact ⟨_, rfl⟩

/-- If a family of values contains NaN and every member is finite or NaN,
the sum is NaN. -/
theorem sumL_nan_mem {l : List FV} (hmem : nan ∈ l)
    (hall : ∀ x ∈ l, IsFin x ∨ x = nan) : sumL l = nan := by
  induction l with
  | nil => cases hmem
  | cons a l ih =>
      rcases List.mem_cons.mp hmem with ha | hl
      · rw [sumL, ← ha, nan_add]
      · rw [sumL, ih hl (fun x hx => hall x (List.mem_cons_of_mem a hx)), add_nan]

theorem isFin_fin (r : ℝ) : IsFin (fin r) := ⟨r, rfl⟩

theorem IsFin.add {x y : FV} (hx : IsFin x) (hy : IsFin y) :
    IsFin (x.add y) := by
  obtain ⟨a, rfl⟩ := hx
  obtain ⟨b, rfl⟩ := hy
  exact ⟨a + b, rfl⟩

theorem IsFin.mul {x y : FV} (hx : IsFin x) (hy : IsFin y) :
    IsFin (x.mul y) := by
  obtain ⟨a, rfl⟩ := hx
  obtain ⟨b, rfl⟩ := hy
  exact ⟨a * b, rfl⟩

theorem IsFin.leakyRelu {x : FV} (a : ℝ) (hx : IsFin x) :
    IsFin (leakyRelu a x) := by
  obtain ⟨r, rfl⟩ := hx
  rw [leakyRelu_fin]
  exact ⟨_, rfl⟩

theorem IsFin.relu {x : FV} (hx : IsFin x) : IsFin x.relu := by
  obtain ⟨r, rfl⟩ := hx
  exact ⟨max r 0, rfl⟩

/-- Negation. -/
def neg : FV → FV
  | fin r => fin (-r)
  | pinf => ninf
  | ninf => pinf
  | nan => nan

/-- Subtraction, x + (-y). -/
def sub (x y : FV) : FV := x.add y.neg

theorem sub_fin (a b : ℝ) : (fin a).sub (fin b) = fin (a - b) := by
  simp [sub, neg, add, sub_eq_add_neg]

theorem IsFin.sub {x y : FV} (hx : IsFin x) (hy : IsFin y) :
    IsFin (x.sub y) := by
  obtain ⟨a, rfl⟩ := hx
  obtain ⟨b, rfl⟩ := hy
  rw [sub_fin]
  exact ⟨a - b, rfl⟩

end FV

/-! Real-valued linear algebra helpers shared by the embedded modules. -/

/-- Dot product of two feature vectors. -/
def dotProd {d : ℕ} (a b : Fin d → ℝ) : ℝ := ∑ k, a k * b k

/-- Euclidean norm, torch.norm(v, p=2). -/
def l2norm {d : ℕ} (a : Fin d → ℝ) : ℝ := Real.sqrt (dotProd a a)

/-- Default epsilon of F.cosine_similarity. -/
def cosEps : ℝ := 1e-8

/-- F.cosine_similarity of two vectors: the dot product divided by the
product of norms clamped below by cosEps (the PyTorch semantics used at
FullModel.forward lines 295-299). -/
def cosineSimilarity {d : ℕ} (a b : Fin d → ℝ) : ℝ :=
  dotProd a b / max (l2norm a * l2norm b) cosEps

/-- The weighted adjacency matrix of FullModel.forward (lines 295-300):
pairwise cosine similarity of the feature rows rescaled from the interval
of values minus one to one into zero to one. -/
def adjFromFeatures {B d : ℕ} (feats : Fin B → Fin d → ℝ) (i j : Fin B) : ℝ :=
  (cosineSimilarity (feats i) (feats j) + 1) / 2

theorem dotProd_comm {d : ℕ} (a b : Fin d → ℝ) : dotProd a b = dotProd b a := by
  unfold dotProd
  exact Finset.sum_congr rfl fun _ _ => mul_comm _ _

theorem dotProd_self_nonneg {d : ℕ} (a : Fin d → ℝ) : 0 ≤ dotProd a a :=
  Finset.sum_nonneg fun _ _ => mul_self_nonneg _

theorem l2norm_nonneg {d : ℕ} (a : Fin d → ℝ) : 0 ≤ l2norm a :=
  Real.sqrt_nonneg _

theorem l2norm_mul_self {d : ℕ} (a : Fin d → ℝ) :
    l2norm a * l2norm a = dotProd a a :=
  Real.mul_self_sqrt (dotProd_self_nonneg a)

/-- Cauchy-Schwarz for the dot product. -/
theorem abs_dotProd_le {d : ℕ} (a b : Fin d → ℝ) :
    |dotProd a b| ≤ l2norm a * l2norm b := by
  have hcs : (dotProd a b) ^ 2 ≤ dotProd a a * dotProd b b := by
    have h := Finset.sum_mul_sq_le_sq_mul_sq (Finset.univ : Finset (Fin d)) a b
    unfold dotProd
    calc (∑ k, a k * b k) ^ 2
        ≤ (∑ k, a k ^ 2) * ∑ k, b k ^ 2 := h
      _ = (∑ k, a k * a k) * ∑ k, b k * b k := by
          simp [sq]
  have h2 := Real.sqrt_le_sqrt hcs
  rw [Real.sqrt_sq_eq_abs, Real.sqrt_mul (dotProd_self_nonneg a)] at h2
  exact h2

theorem cosEps_pos : (0 : ℝ) < cosEps := by norm_num [cosEps]

theorem abs_cosineSimilarity_le_one {d : ℕ} (a b : Fin d → ℝ) :
    |cosineSimilarity a b| ≤ 1 := by
  unfold cosineSimilarity
  have hM : 0 < max (l2norm a * l2norm b) cosEps :=
    lt_of_lt_of_le cosEps_pos (le_max_right _ _)
  rw [abs_div, abs_of_pos hM, div_le_one hM]
  exact le_trans (abs_dotProd_le a b) (le_max_left _ _)

/-- Every adjacency diagonal entry is at least one half, hence positive:
self cosine similarity is nonnegative.  This is why every node of the
dynamically built graph keeps a self loop under the positive-weight mask. -/
theorem adjFromFeatures_diag_pos {B d : ℕ} (feats : Fin B → Fin d → ℝ)
    (i : Fin B) : 0 < adjFromFeatures feats i i := by
  unfold adjFromFeatures
  have hM : 0 < max (l2norm (feats i) * l2norm (feats i)) cosEps :=
    lt_of_lt_of_le cosEps_pos (le_max_right _ _)
  have hc : 0 ≤ cosineSimilarity (feats i) (feats i) := by
    unfold cosineSimilarity
    exact div_nonneg (dotProd_self_nonneg _) (le_of_lt hM)
  linarith

/-! The feature-extractor fuse tail (MultiScaleFeatureExtractor lines
44-50 and 84): adaptive average pool to one pixel, flatten, linear
projection, BatchNorm1d, ReLU, then row-wise L2 normalization.  The
convolutional backbone stages and bilinear interpolation are torchvision
internals; their fused concatenated output enters as an input. -/

/-- Default epsilon of F.normalize. -/
def normEps : ℝ := 1e-12

/-- Epsilon of BatchNorm1d and LayerNorm. -/
def bnEps : ℝ := 1e-5

/-- F.normalize(v, p=2, dim=1) on one row: divide by the norm clamped
below by normEps. -/
def l2normalizeRow {d : ℕ} (v : Fin d → ℝ) (i : Fin d) : ℝ :=
  v i / max (l2norm v) normEps

/-- nn.Linear with bias. -/
def linearMap {dIn dOut : ℕ} (W : Fin dOut → Fin dIn → ℝ) (b : Fin dOut → ℝ)
    (v : Fin dIn → ℝ) (o : Fin dOut) : ℝ :=
  (∑ k, W o k * v k) + b o

/-- Learned affine and running statistics of a BatchNorm1d module. -/
structure BNParams (d : ℕ) where
  gamma : Fin d → ℝ
  beta : Fin d → ℝ
  runMean : Fin d → ℝ
  runVar : Fin d → ℝ

/-- Per-channel mean over the batch. -/
def batchMean {B d : ℕ} (x : Fin B → Fin d → ℝ) (c : Fin d) : ℝ :=
  (∑ b, x b c) / B

/-- Per-channel biased variance over the batch. -/
def batchVar {B d : ℕ} (x : Fin B → Fin d → ℝ) (c : Fin d) : ℝ :=
  (∑ b, (x b c - batchMean x c) ^ 2) / B

/-- BatchNorm1d: batch statistics in training mode, running statistics in
evaluation mode, then the learned affine map. -/
def batchNorm1d {B d : ℕ} (training : Bool) (p : BNParams d)
    (x : Fin B → Fin d → ℝ) (b : Fin B) (c : Fin d) : ℝ :=
  let m := if training then batchMean x c else p.runMean c
  let v := if training then batchVar x c else p.runVar c
  p.gamma c * (x b c - m) / Real.sqrt (v + bnEps) + p.beta c

/-- ReLU on a real. -/
def reluR (r : ℝ) : ℝ := max r 0

/-- AdaptiveAvgPool2d(1) followed by Flatten on one image's fused map. -/
def gapFlatten {C H W : ℕ} (fm : Fin C → Fin H → Fin W → ℝ) (c : Fin C) : ℝ :=
  (∑ h, ∑ w, fm c h w) / (H * W)

/-- The row fed to the final F.normalize of
MultiScaleFeatureExtractor.forward: pool, flatten, linear, batch norm,
ReLU. -/
def extractorPreNorm {B C H W dOut : ℕ} (training : Bool)
    (lW : Fin dOut → Fin C → ℝ) (lb : Fin dOut → ℝ) (bn : BNParams dOut)
    (fused : Fin B → Fin C → Fin H → Fin W → ℝ) (b : Fin B)
    (c : Fin dOut) : ℝ :=
  reluR (batchNorm1d training bn
    (fun b0 => linearMap lW lb (gapFlatten (fused b0))) b c)

/-- MultiScaleFeatureExtractor.forward output (line 84): the fuse tail
followed by row-wise L2 normalization. -/
def extractorForward {B C H W dOut : ℕ} (training : Bool)
    (lW : Fin dOut → Fin C → ℝ) (lb : Fin dOut → ℝ) (bn : BNParams dOut)
    (fused : Fin B → Fin C → Fin H → Fin W → ℝ) (b : Fin B) :
    Fin dOut → ℝ :=
  l2normalizeRow (extractorPreNorm training lW lb bn fused b)

/-- L2 normalization yields an exactly unit vector whenever the input
norm reaches the clamping epsilon. -/
theorem l2normalizeRow_unit {d : ℕ} (v : Fin d → ℝ)
    (h : normEps ≤ l2norm v) :
    dotProd (l2normalizeRow v) (l2normalizeRow v) = 1 := by
  have heps : (0 : ℝ) < normEps := by norm_num [normEps]
  have hn : 0 < l2norm v := lt_of_lt_of_le heps h
  have hmax : max (l2norm v) normEps = l2norm v := max_eq_left h
  unfold dotProd l2normalizeRow
  rw [hmax]
  have : ∀ k : Fin d, v k / l2norm v * (v k / l2norm v)
      = v k * v k / (l2norm v * l2norm v) := fun k => by
    field_simp
  rw [Finset.sum_congr rfl fun k _ => this k, ← Finset.sum_div,
    l2norm_mul_self]
  have hd : 0 < dotProd v v := by
    have := l2norm_mul_self v
    nlinarith
  exact div_self (ne_of_gt hd)

/-! The weighted multi-head GAT layer (WeightedMultiHeadGAT, base_model.py
lines 88-176).  out_features equals heads times the per-head width after
the divisibility assert, so output channels are indexed by
Fin (heads * dh).  The reshape view(num_nodes, heads, dh) and the inverse
flatten are represented by currying indices into a head index and a
per-head index. -/

/-- Python exceptions surfaced by the embedded module code. -/
inductive PyErr where
  | attributeError
  | assertionError

/-- Constructor configuration of WeightedMultiHeadGAT. -/
structure GATCfg where
  residual : Bool
  useEdgeWeights : Bool
  training : Bool
  alpha : ℝ
  dropout : ℝ

/-- Bernoulli keep-masks drawn by the two F.dropout / nn.Dropout sites of
one layer; indexed over bare naturals so one structure serves every layer
width. -/
structure GATNoise where
  attnKeep : ℕ → ℕ → ℕ → Bool
  fuseKeep : ℕ → ℕ → Bool

/-- Learned state of one WeightedMultiHeadGAT: W (no bias), the per-head
attention vectors, the edge encoder, the residual projection res_fc, and
the head_fusion linear layer.  Weights touching the flattened
heads * dh axis are curried into a head index and a per-head index. -/
structure GATWeights (inF heads dh : ℕ) where
  W : Fin heads → Fin dh → Fin inF → ℝ
  attnSrc : Fin heads → Fin dh → ℝ
  attnDst : Fin heads → Fin dh → ℝ
  edgeW : Fin heads → ℝ
  edgeB : Fin heads → ℝ
  resW : Fin heads → Fin dh → Fin inF → ℝ
  resB : Fin heads → Fin dh → ℝ
  fuseW : Fin (heads * dh) → Fin heads → Fin dh → ℝ
  fuseB : Fin (heads * dh) → ℝ

/-- F.dropout: identity in evaluation mode; in training mode multiply by
the Bernoulli mask and rescale kept entries by 1/(1-p).  The zeroed
branch multiplies by zero exactly as the engine does, so NaN is not
silenced by dropout. -/
def dropoutFV (p : ℝ) (training : Bool) (keep : Bool) (x : FV) : FV :=
  match training with
  | false => x
  | true => if keep then x.mul (FV.fin (1 / (1 - p))) else x.mul (FV.fin 0)

/-- Elementwise lift of a real activation (the nn.GELU of head_fusion,
whose exact curve is engine-provided); non-finite values pass through,
in particular NaN propagates. -/
def geluFV (g : ℝ → ℝ) : FV → FV
  | FV.fin r => FV.fin (g r)
  | FV.pinf => FV.pinf
  | FV.ninf => FV.ninf
  | FV.nan => FV.nan

/-- Attribute access self.res_fc (forward line 169).  __init__ assigns the
attribute only under residual=True (lines 127-129); when it was never
assigned, nn.Module attribute lookup raises AttributeError.  When present
it is the constructed Linear module (never None). -/
def resFcLookup {inF heads dh : ℕ} (residual : Bool)
    (w : GATWeights inF heads dh) :
    Except PyErr ((Fin heads → Fin dh → Fin inF → ℝ) × (Fin heads → Fin dh → ℝ)) :=
  match residual with
  | true => Except.ok (w.resW, w.resB)
  | false => Except.error PyErr.attributeError

/-- Step 1 of forward: h = W x viewed as num_nodes x heads x dh. -/
def gatH {n inF heads dh : ℕ} (w : GATWeights inF heads dh)
    (x : Fin n → Fin inF → FV) (j : Fin n) (hd : Fin heads) (d : Fin dh) : FV :=
  FV.sumL (List.ofFn fun k => (FV.fin (w.W hd d k)).mul (x j k))

/-- attn_src: sum over the per-head axis of h times the source attention
vector. -/
def gatSrcScore {n inF heads dh : ℕ} (w : GATWeights inF heads dh)
    (x : Fin n → Fin inF → FV) (j : Fin n) (hd : Fin heads) : FV :=
  FV.sumL (List.ofFn fun d => (gatH w x j hd d).mul (FV.fin (w.attnSrc hd d)))

/-- attn_dst: sum over the per-head axis of h times the destination
attention vector. -/
def gatDstScore {n inF heads dh : ℕ} (w : GATWeights inF heads dh)
    (x : Fin n → Fin inF → FV) (j : Fin n) (hd : Fin heads) : FV :=
  FV.sumL (List.ofFn fun d => (gatH w x j hd d).mul (FV.fin (w.attnDst hd d)))

/-- Raw attention scores (line 148) plus the encoded edge weight when edge
weighting is enabled (lines 151-153): index i broadcasts attn_src,
index j broadcasts attn_dst. -/
def gatScore {n inF heads dh : ℕ} (cfg : GATCfg) (w : GATWeights inF heads dh)
    (x : Fin n → Fin inF → FV) (adj : Fin n → Fin n → ℝ)
    (i j : Fin n) (hd : Fin heads) : FV :=
  let raw := (gatSrcScore w x i hd).add (gatDstScore w x j hd)
  if cfg.useEdgeWeights then
    raw.add (FV.fin (w.edgeW hd * adj i j + w.edgeB hd))
  else raw

/-- Masking (lines 156-157): scores of pairs with non-positive adjacency
weight are replaced by negative infinity. -/
def gatMasked {n inF heads dh : ℕ} (cfg : GATCfg) (w : GATWeights inF heads dh)
    (x : Fin n → Fin inF → FV) (adj : Fin n → Fin n → ℝ)
    (i j : Fin n) (hd : Fin heads) : FV :=
  if 0 < adj i j then gatScore cfg w x adj i j hd else FV.ninf

/-- Leaky ReLU applied to the masked scores (line 160). -/
def gatPostAct {n inF heads dh : ℕ} (cfg : GATCfg) (w : GATWeights inF heads dh)
    (x : Fin n → Fin inF → FV) (adj : Fin n → Fin n → ℝ)
    (i j : Fin n) (hd : Fin heads) : FV :=
  FV.leakyRelu cfg.alpha (gatMasked cfg w x adj i j hd)

/-- Softmax denominator along dim 1, the source-node axis (line 161). -/
def gatDenom {n inF heads dh : ℕ} (cfg : GATCfg) (w : GATWeights inF heads dh)
    (x : Fin n → Fin inF → FV) (adj : Fin n → Fin n → ℝ)
    (i : Fin n) (hd : Fin heads) : FV :=
  FV.sumL (List.ofFn fun j => (gatPostAct cfg w x adj i j hd).exp)

/-- Normalized attention weight of destination i attending to source j
for one head: the softmax of line 161. -/
def gatCoef {n inF heads dh : ℕ} (cfg : GATCfg) (w : GATWeights inF heads dh)
    (x : Fin n → Fin inF → FV) (adj : Fin n → Fin n → ℝ)
    (i j : Fin n) (hd : Fin heads) : FV :=
  ((gatPostAct cfg w x adj i j hd).exp).div (gatDenom cfg w x adj i hd)

/-- Attention weights after the training-time dropout of line 162. -/
def gatCoefDrop {n inF heads dh : ℕ} (cfg : GATCfg) (noise : GATNoise)
    (w : GATWeights inF heads dh) (x : Fin n → Fin inF → FV)
    (adj : Fin n → Fin n → ℝ) (i j : Fin n) (hd : Fin heads) : FV :=
  dropoutFV cfg.dropout cfg.training (noise.attnKeep i.val j.val hd.val)
    (gatCoef cfg w x adj i j hd)

/-- Feature aggregation, the einsum of line 165: destination i sums the
attention-weighted per-head features of every source j. -/
def gatAgg {n inF heads dh : ℕ} (cfg : GATCfg) (noise : GATNoise)
    (w : GATWeights inF heads dh) (x : Fin n → Fin inF → FV)
    (adj : Fin n → Fin n → ℝ) (i : Fin n) (hd : Fin heads) (d : Fin dh) : FV :=
  FV.sumL (List.ofFn fun j =>
    (gatCoefDrop cfg noise w x adj i j hd).mul (gatH w x j hd d))

/-- The residual projection res_fc applied to the layer input (line 170). -/
def gatRes {n inF heads dh : ℕ} (w : GATWeights inF heads dh)
    (x : Fin n → Fin inF → FV) (i : Fin n) (hd : Fin heads) (d : Fin dh) : FV :=
  (FV.sumL (List.ofFn fun k => (FV.fin (w.resW hd d k)).mul (x i k))).add
    (FV.fin (w.resB hd d))

/-- Aggregated features plus the residual projection (line 171), indexed
before the flatten back to the heads * dh axis. -/
def gatPreFuse {n inF heads dh : ℕ} (cfg : GATCfg) (noise : GATNoise)
    (w : GATWeights inF heads dh) (x : Fin n → Fin inF → FV)
    (adj : Fin n → Fin n → ℝ) (i : Fin n) (hd : Fin heads) (d : Fin dh) : FV :=
  (gatAgg cfg noise w x adj i hd d).add (gatRes w x i hd d)

/-- The head_fusion linear layer (line 116) over the flattened head
axis. -/
def gatFusionLin {n inF heads dh : ℕ} (cfg : GATCfg) (noise : GATNoise)
    (w : GATWeights inF heads dh) (x : Fin n → Fin inF → FV)
    (adj : Fin n → Fin n → ℝ) (i : Fin n) (c : Fin (heads * dh)) : FV :=
  (FV.sumL (List.ofFn fun hd => FV.sumL (List.ofFn fun d =>
    (FV.fin (w.fuseW c hd d)).mul (gatPreFuse cfg noise w x adj i hd d)))).add
    (FV.fin (w.fuseB c))

/-- head_fusion (lines 115-119, applied at line 174): linear over the
flattened head axis, the GELU activation, then dropout. -/
def gatOut {n inF heads dh : ℕ} (cfg : GATCfg) (g : ℝ → ℝ) (noise : GATNoise)
    (w : GATWeights inF heads dh) (x : Fin n → Fin inF → FV)
    (adj : Fin n → Fin n → ℝ) (i : Fin n) (c : Fin (heads * dh)) : FV :=
  dropoutFV cfg.dropout cfg.training (noise.fuseKeep i.val c.val)
    (geluFV g (gatFusionLin cfg noise w x adj i c))

/-- WeightedMultiHeadGAT.forward (lines 138-176).  The residual branch at
line 169 reads self.res_fc unconditionally, so with residual disabled the
whole call raises AttributeError; with residual enabled the lookup
succeeds (and is never None), so the residual projection is always added. -/
def gatForward {n inF heads dh : ℕ} (cfg : GATCfg) (g : ℝ → ℝ)
    (noise : GATNoise) (w : GATWeights inF heads dh)
    (x : Fin n → Fin inF → FV) (adj : Fin n → Fin n → ℝ) :
    Except PyErr (Fin n → Fin (heads * dh) → FV) :=
  match resFcLookup cfg.residual w with
  | Except.error e => Except.error e
  | Except.ok _ => Except.ok (gatOut cfg g noise w x adj)

/-! Concrete instances for closed evaluations. -/

/-- Zero-initialized weights at the smallest dimensions (one input
feature, one head of width one). -/
def wZero : GATWeights 1 1 1 :=
  ⟨fun _ _ _ => 0, fun _ _ => 0, fun _ _ => 0, fun _ => 0, fun _ => 0,
   fun _ _ _ => 0, fun _ _ => 0, fun _ _ _ => 0, fun _ => 0⟩

/-- The source defaults with residual enabled (evaluation mode). -/
def cfgRes : GATCfg := ⟨true, true, false, 0.2, 0.3⟩

/-- The source defaults with residual disabled (evaluation mode). -/
def cfgNoRes : GATCfg := ⟨false, true, false, 0.2, 0.3⟩

/-- Keep-everything dropout draw. -/
def noiseAll : GATNoise := ⟨fun _ _ _ => true, fun _ _ => true⟩

/-- Identity stand-in for the engine activation in closed evaluations. -/
def gid : ℝ → ℝ := fun r => r

theorem cfgRes_training : cfgRes.training = false := rfl

theorem cfgRes_alpha : cfgRes.alpha = 0.2 := rfl

def x1Zero : Fin 1 → Fin 1 → FV := fun _ _ => FV.fin 0

def x2Zero : Fin 2 → Fin 1 → FV := fun _ _ => FV.fin 0

def adjOne : Fin 1 → Fin 1 → ℝ := fun _ _ => 1

def adjZero1 : Fin 1 → Fin 1 → ℝ := fun _ _ => 0

/-- Two-node adjacency whose first row is entirely zero: node 0 has no
positive edge (not even a self loop), node 1 keeps its self loop. -/
def adjRow0 : Fin 2 → Fin 2 → ℝ := fun i j => if i = 1 ∧ j = 1 then 1 else 0

/-- C1: with residual=False the constructor never assigns res_fc, so the
absence check of the module's own test (line 389, layer.res_fc is None)
raises AttributeError instead of succeeding, and forward fails at line
169 for the same reason; with residual=True the projection is exposed and
forward is well-defined.  Evaluated at concrete minimal inputs. -/
theorem residual_config_attribute_error :
    resFcLookup false wZero = Except.error PyErr.attributeError ∧
    gatForward cfgNoRes gid noiseAll wZero x1Zero adjOne
      = Except.error PyErr.attributeError ∧
    resFcLookup true wZero = Except.ok (wZero.resW, wZero.resB) ∧
    gatForward cfgRes gid noiseAll wZero x1Zero adjOne
      = Except.ok (gatOut cfgRes gid noiseAll wZero x1Zero adjOne) :=
  ⟨rfl, rfl, rfl, rfl⟩

/-- C2: on a two-node graph whose first row of the adjacency matrix is
entirely non-positive, WeightedMultiHeadGAT.forward succeeds but the
output row of the fully masked destination node is NaN: softmax of an
all-negative-infinity row divides zero by zero, and the NaN propagates
through aggregation, residual addition and head fusion, for every
elementwise activation curve g. -/
theorem gat_masked_row_nan_output (g : ℝ → ℝ) :
    gatForward cfgRes g noiseAll wZero x2Zero adjRow0
      = Except.ok (gatOut cfgRes g noiseAll wZero x2Zero adjRow0) ∧
    gatOut cfgRes g noiseAll wZero x2Zero adjRow0 0 0 = FV.nan := by
  refine ⟨rfl, ?_⟩
  have hH : ∀ (j : Fin 2) (hb : Fin 1) (d : Fin 1),
      gatH wZero x2Zero j hb d = FV.fin 0 := by
    intro j hb d
    simp [gatH, wZero, x2Zero, FV.sumL, FV.mul_fin, FV.add_fin]
  have hsrc : ∀ (j : Fin 2) (hb : Fin 1),
      gatSrcScore wZero x2Zero j hb = FV.fin 0 := by
    intro j hb
    simp [gatSrcScore, hH, FV.sumL, FV.mul_fin, FV.add_fin]
  have hdst : ∀ (j : Fin 2) (hb : Fin 1),
      gatDstScore wZero x2Zero j hb = FV.fin 0 := by
    intro j hb
    simp [gatDstScore, hH, FV.sumL, FV.mul_fin, FV.add_fin]
  have hadj0 : ∀ j : Fin 2, adjRow0 0 j = 0 := by
    intro j
    simp [adjRow0]
  have hmask : ∀ (j : Fin 2) (hb : Fin 1),
      gatMasked cfgRes wZero x2Zero adjRow0 0 j hb = FV.ninf := by
    intro j hb
    simp [gatMasked, hadj0]
  have hpost : ∀ (j : Fin 2) (hb : Fin 1),
      gatPostAct cfgRes wZero x2Zero adjRow0 0 j hb = FV.ninf := by
    intro j hb
    rw [gatPostAct, hmask, FV.leakyRelu_ninf]
    norm_num [FV.mul, cfgRes]
  have hdenom : ∀ hb : Fin 1,
      gatDenom cfgRes wZero x2Zero adjRow0 0 hb = FV.fin 0 := by
    intro hb
    simp [gatDenom, hpost, FV.exp, FV.sumL, FV.add_fin]
  have hcoef : ∀ (j : Fin 2) (hb : Fin 1),
      gatCoef cfgRes wZero x2Zero adjRow0 0 j hb = FV.nan := by
    intro j hb
    rw [gatCoef, hpost, hdenom]
    simp [FV.exp, FV.div]
  have hagg : ∀ (hb : Fin 1) (d : Fin 1),
      gatAgg cfgRes noiseAll wZero x2Zero adjRow0 0 hb d = FV.nan := by
    intro hb d
    simp [gatAgg, gatCoefDrop, dropoutFV, cfgRes_training, hcoef, hH,
      FV.sumL, FV.nan_mul, FV.nan_add]
  have hres : ∀ (hb : Fin 1) (d : Fin 1),
      gatRes wZero x2Zero 0 hb d = FV.fin 0 := by
    intro hb d
    simp [gatRes, wZero, x2Zero, FV.sumL, FV.mul_fin, FV.add_fin]
  simp [gatOut, gatFusionLin, gatPreFuse, hagg, hres, FV.nan_add,
    FV.mul_nan, FV.sumL, FV.nan_mul, dropoutFV, cfgRes_training, geluFV]

/-- The head projection of finite node features is finite. -/
theorem gatH_isFin {n inF heads dh : ℕ} (w : GATWeights inF heads dh)
    (x : Fin n → Fin inF → FV) (hx : ∀ a k, FV.IsFin (x a k))
    (j : Fin n) (hd : Fin heads) (d : Fin dh) : FV.IsFin (gatH w x j hd d) :=
  FV.sumL_ofFn_isFin _ fun k => FV.IsFin.mul (FV.isFin_fin _) (hx j k)

/-- Raw attention scores of finite node features are finite. -/
theorem gatScore_isFin {n inF heads dh : ℕ} (cfg : GATCfg)
    (w : GATWeights inF heads dh) (x : Fin n → Fin inF → FV)
    (adj : Fin n → Fin n → ℝ) (hx : ∀ a k, FV.IsFin (x a k))
    (i j : Fin n) (hd : Fin heads) :
    FV.IsFin (gatScore cfg w x adj i j hd) := by
  have hsrc : FV.IsFin (gatSrcScore w x i hd) :=
    FV.sumL_ofFn_isFin _ fun d =>
      FV.IsFin.mul (gatH_isFin w x hx i hd d) (FV.isFin_fin _)
  have hdst : FV.IsFin (gatDstScore w x j hd) :=
    FV.sumL_ofFn_isFin _ fun d =>
      FV.IsFin.mul (gatH_isFin w x hx j hd d) (FV.isFin_fin _)
  unfold gatScore
  by_cases he : cfg.useEdgeWeights
  · simpa [he] using (hsrc.add hdst).add (FV.isFin_fin _)
  · simpa [he] using hsrc.add hdst

/-- Softmax row structure for a destination with at least one positive
adjacency entry: the attention weights of the row are the finite values
of a real family summing to one. -/
theorem gatCoef_row_fin {n inF heads dh : ℕ} (cfg : GATCfg)
    (w : GATWeights inF heads dh) (x : Fin n → Fin inF → FV)
    (adj : Fin n → Fin n → ℝ) (i : Fin n) (hd : Fin heads)
    (hx : ∀ a k, FV.IsFin (x a k)) (halpha : 0 < cfg.alpha)
    (hpos : ∃ j, 0 < adj i j) :
    ∃ cf : Fin n → ℝ,
      (∀ j, gatCoef cfg w x adj i j hd = FV.fin (cf j)) ∧
      (∑ j, cf j) = 1 := by
  choose s hs using fun j => gatScore_isFin cfg w x adj hx i j hd
  set e : Fin n → ℝ := fun j =>
    if 0 < adj i j then Real.exp (if 0 < s j then s j else s j * cfg.alpha)
    else 0 with he
  have hexp : ∀ j, (gatPostAct cfg w x adj i j hd).exp = FV.fin (e j) := by
    intro j
    unfold gatPostAct gatMasked
    by_cases hj : 0 < adj i j
    · rw [if_pos hj, hs j, FV.leakyRelu_fin, FV.exp_fin]
      simp [he, hj]
    · rw [if_neg hj, FV.leakyRelu_ninf]
      have hm : FV.ninf.mul (FV.fin cfg.alpha) = FV.ninf := by
        simp [FV.mul, halpha]
      rw [hm]
      simp [FV.exp, he, hj]
  have henn : ∀ j, 0 ≤ e j := by
    intro j
    rw [he]
    by_cases hj : 0 < adj i j
    · simp only [hj, if_true]
      exact (Real.exp_pos _).le
    · simp [hj]
  obtain ⟨j0, hj0⟩ := hpos
  have hepos : 0 < e j0 := by
    rw [he]
    simp only [hj0, if_true]
    exact Real.exp_pos _
  have hS : 0 < ∑ j, e j :=
    Finset.sum_pos' (fun j _ => henn j) ⟨j0, Finset.mem_univ _, hepos⟩
  have hdenom : gatDenom cfg w x adj i hd = FV.fin (∑ j, e j) := by
    unfold gatDenom
    rw [show (List.ofFn fun j => (gatPostAct cfg w x adj i j hd).exp)
        = List.ofFn fun j => FV.fin (e j) from congrArg _ (funext hexp),
      FV.sumL_ofFn_fin]
  refine ⟨fun j => e j / ∑ k, e k, fun j => ?_, ?_⟩
  · unfold gatCoef
    rw [hexp j, hdenom, FV.div_fin _ _ (ne_of_gt hS)]
  · rw [← Finset.sum_div, div_self (ne_of_gt hS)]

/-- Dropout preserves finiteness in both modes. -/
theorem dropoutFV_isFin (p : ℝ) (training keep : Bool) {x : FV}
    (hx : FV.IsFin x) : FV.IsFin (dropoutFV p training keep x) := by
  obtain ⟨r, rfl⟩ := hx
  cases training
  · exact ⟨r, rfl⟩
  · cases keep
    · exact ⟨r * 0, rfl⟩
    · exact ⟨r * (1 / (1 - p)), rfl⟩

/-- One GAT layer maps finite node features to finite outputs provided
every destination in the adjacency has at least one positive entry and
the leaky slope is positive. -/
theorem gatOut_isFin {n inF heads dh : ℕ} (cfg : GATCfg) (g : ℝ → ℝ)
    (noise : GATNoise) (w : GATWeights inF heads dh)
    (x : Fin n → Fin inF → FV) (adj : Fin n → Fin n → ℝ)
    (hx : ∀ a k, FV.IsFin (x a k)) (halpha : 0 < cfg.alpha)
    (hadj : ∀ i, ∃ j, 0 < adj i j) (i : Fin n) (c : Fin (heads * dh)) :
    FV.IsFin (gatOut cfg g noise w x adj i c) := by
  have hcoef : ∀ (j : Fin n) (hd : Fin heads),
      FV.IsFin (gatCoef cfg w x adj i j hd) := by
    intro j hd
    obtain ⟨cf, hcf, _⟩ := gatCoef_row_fin cfg w x adj i hd hx halpha (hadj i)
    exact ⟨cf j, hcf j⟩
  have hagg : ∀ (hd : Fin heads) (d : Fin dh),
      FV.IsFin (gatAgg cfg noise w x adj i hd d) := fun hd d =>
    FV.sumL_ofFn_isFin _ fun j =>
      FV.IsFin.mul (dropoutFV_isFin _ _ _ (hcoef j hd))
        (gatH_isFin w x hx j hd d)
  have hres : ∀ (hd : Fin heads) (d : Fin dh),
      FV.IsFin (gatRes w x i hd d) := fun hd d =>
    FV.IsFin.add
      (FV.sumL_ofFn_isFin _ fun k => FV.IsFin.mul (FV.isFin_fin _) (hx i k))
      (FV.isFin_fin _)
  have hlin : FV.IsFin (gatFusionLin cfg noise w x adj i c) :=
    FV.IsFin.add
      (FV.sumL_ofFn_isFin _ fun hd => FV.sumL_ofFn_isFin _ fun d =>
        FV.IsFin.mul (FV.isFin_fin _)
          (FV.IsFin.add (hagg hd d) (hres hd d)))
      (FV.isFin_fin _)
  obtain ⟨r, hr⟩ := hlin
  unfold gatOut
  apply dropoutFV_isFin
  rw [hr]
  exact ⟨g r, rfl⟩

/-- WeightedMultiHeadGAT.forward succeeds whenever residual is enabled
(the res_fc attribute lookup of line 169 then finds the module). -/
theorem gatForward_ok {n inF heads dh : ℕ} (cfg : GATCfg) (g : ℝ → ℝ)
    (noise : GATNoise) (w : GATWeights inF heads dh)
    (x : Fin n → Fin inF → FV) (adj : Fin n → Fin n → ℝ)
    (hres : cfg.residual = true) :
    gatForward cfg g noise w x adj
      = Except.ok (gatOut cfg g noise w x adj) := by
  unfold gatForward
  rw [hres]
  rfl

/-- C3 (amended): for any real node features, any weights and any
adjacency matrix, the normalized attention weights of a destination node
i and head sum to exactly one along the source axis whenever row i has at
least one positive adjacency entry and the configured leaky slope is
positive (0.2 in this repository); a fully masked row instead yields NaN
weights, not zero. -/
theorem gat_rowSum_one {n inF heads dh : ℕ} (cfg : GATCfg)
    (w : GATWeights inF heads dh) (feats : Fin n → Fin inF → ℝ)
    (adj : Fin n → Fin n → ℝ) (i : Fin n) (hd : Fin heads)
    (halpha : 0 < cfg.alpha) (hpos : ∃ j, 0 < adj i j) :
    FV.sumL (List.ofFn fun j =>
      gatCoef cfg w (fun a b => FV.fin (feats a b)) adj i j hd)
      = FV.fin 1 := by
  obtain ⟨cf, hcf, hsum⟩ := gatCoef_row_fin cfg w
    (fun a b => FV.fin (feats a b)) adj i hd
    (fun a k => ⟨feats a k, rfl⟩) halpha hpos
  rw [show (List.ofFn fun j =>
      gatCoef cfg w (fun a b => FV.fin (feats a b)) adj i j hd)
      = List.ofFn fun j => FV.fin (cf j) from congrArg _ (funext hcf),
    FV.sumL_ofFn_fin, hsum]

/-- Witness for the amended C3 theorem at a concrete single-node graph
with a positive self edge and the repository leaky slope 0.2. -/
theorem gat_rowSum_one_check :
    (0 : ℝ) < cfgRes.alpha ∧ (∃ j : Fin 1, (0 : ℝ) < adjOne 0 j) ∧
    FV.sumL (List.ofFn fun j =>
      gatCoef cfgRes wZero (fun a b => FV.fin ((fun _ _ => (0 : ℝ)) a b))
        adjOne 0 j 0) = FV.fin 1 := by
  have h1 : (0 : ℝ) < cfgRes.alpha := by norm_num [cfgRes]
  have h2 : ∃ j : Fin 1, (0 : ℝ) < adjOne 0 j := ⟨0, by norm_num [adjOne]⟩
  exact ⟨h1, h2, gat_rowSum_one cfgRes wZero (fun _ _ => 0) adjOne 0 0 h1 h2⟩

/-- C3 counterexample to the claim as stated: on a single-node graph with
a fully masked row the attention-weight row sums to NaN, not to the zero
promised by the degenerate policy of the claim (and not to one). -/
theorem gat_rowSum_fully_masked_nan :
    FV.sumL (List.ofFn fun j =>
      gatCoef cfgRes wZero x1Zero adjZero1 0 j 0) = FV.nan ∧
    FV.nan ≠ FV.fin 0 ∧ FV.nan ≠ FV.fin 1 := by
  refine ⟨?_, by simp, by simp⟩
  have hmask : ∀ j : Fin 1,
      gatMasked cfgRes wZero x1Zero adjZero1 0 j 0 = FV.ninf := by
    intro j
    simp [gatMasked, adjZero1]
  have hpost : ∀ j : Fin 1,
      gatPostAct cfgRes wZero x1Zero adjZero1 0 j 0 = FV.ninf := by
    intro j
    rw [gatPostAct, hmask, FV.leakyRelu_ninf]
    norm_num [FV.mul, cfgRes]
  have hdenom : gatDenom cfgRes wZero x1Zero adjZero1 0 0 = FV.fin 0 := by
    simp [gatDenom, hpost, FV.exp, FV.sumL, FV.add_fin]
  have hcoef : ∀ j : Fin 1,
      gatCoef cfgRes wZero x1Zero adjZero1 0 j 0 = FV.nan := by
    intro j
    rw [gatCoef, hpost, hdenom]
    simp [FV.exp, FV.div]
  simp [hcoef, FV.sumL, FV.nan_add]

/-- C4 (amended): for every batch of embeddings the adjacency matrix of
FullModel.forward is symmetric and every entry lies between zero and one;
a diagonal entry equals one whenever the squared norm of that embedding
reaches the cosine-similarity clamping epsilon (in particular for every
unit-norm embedding), while an embedding of norm below the epsilon (for
example the zero vector) makes its diagonal entry fall short of one. -/
theorem adjacency_invariants {B d : ℕ} (feats : Fin B → Fin d → ℝ) :
    (∀ i j, adjFromFeatures feats i j = adjFromFeatures feats j i) ∧
    (∀ i j, 0 ≤ adjFromFeatures feats i j ∧ adjFromFeatures feats i j ≤ 1) ∧
    (∀ i, cosEps ≤ dotProd (feats i) (feats i) →
      adjFromFeatures feats i i = 1) := by
  refine ⟨?_, ?_, ?_⟩
  · intro i j
    unfold adjFromFeatures cosineSimilarity
    rw [dotProd_comm, mul_comm (l2norm (feats i))]
  · intro i j
    have h := abs_cosineSimilarity_le_one (feats i) (feats j)
    rw [abs_le] at h
    unfold adjFromFeatures
    constructor <;> linarith [h.1, h.2]
  · intro i h
    have hdot : 0 < dotProd (feats i) (feats i) :=
      lt_of_lt_of_le cosEps_pos h
    unfold adjFromFeatures cosineSimilarity
    rw [l2norm_mul_self, max_eq_left h, div_self (ne_of_gt hdot)]
    norm_num

/-- A batch containing the all-ones embedding (squared norm one). -/
def featsOne : Fin 1 → Fin 1 → ℝ := fun _ _ => 1

/-- A batch containing the zero embedding. -/
def featsZero1 : Fin 1 → Fin 1 → ℝ := fun _ _ => 0

/-- Witness for the amended C4 theorem at a concrete unit embedding. -/
theorem adjacency_invariants_check :
    cosEps ≤ dotProd (featsOne 0) (featsOne 0) ∧
    adjFromFeatures featsOne 0 0 = 1 := by
  have h : cosEps ≤ dotProd (featsOne 0) (featsOne 0) := by
    have : dotProd (featsOne 0) (featsOne 0) = 1 := by
      simp [dotProd, featsOne]
    rw [this]
    norm_num [cosEps]
  exact ⟨h, (adjacency_invariants featsOne).2.2 0 h⟩

/-- C4 counterexample to the claim as stated: for the batch holding one
zero embedding, F.cosine_similarity clamps the denominator to its epsilon
and returns zero, so the diagonal adjacency entry is one half, not one. -/
theorem adjacency_diag_zero_embedding :
    adjFromFeatures featsZero1 0 0 = 1 / 2 ∧ (1 / 2 : ℝ) ≠ 1 := by
  have h1 : dotProd (featsZero1 0) (featsZero1 0) = 0 := by
    simp [dotProd, featsZero1]
  constructor
  · unfold adjFromFeatures cosineSimilarity l2norm
    rw [h1, Real.sqrt_zero]
    norm_num
  · norm_num

/-- C6 (amended): every output row of MultiScaleFeatureExtractor.forward
has exactly unit squared L2 norm whenever the row entering the final
F.normalize has norm at least the clamping epsilon; a row of norm below
the epsilon is only rescaled by the epsilon, so the zero row (reachable
because the fuse tail ends in ReLU) keeps norm zero. -/
theorem extractor_unit_norm {B C H W dOut : ℕ} (training : Bool)
    (lW : Fin dOut → Fin C → ℝ) (lb : Fin dOut → ℝ) (bn : BNParams dOut)
    (fused : Fin B → Fin C → Fin H → Fin W → ℝ) (b : Fin B)
    (h : normEps ≤ l2norm (extractorPreNorm training lW lb bn fused b)) :
    dotProd (extractorForward training lW lb bn fused b)
      (extractorForward training lW lb bn fused b) = 1 := by
  unfold extractorForward
  exact l2normalizeRow_unit _ h

def lW0 : Fin 1 → Fin 1 → ℝ := fun _ _ => 0

def lb0 : Fin 1 → ℝ := fun _ => 0

/-- Batch-norm parameters with zero scale and bias minus one: the fuse
tail then emits ReLU of minus one, the zero vector. -/
def bnNeg : BNParams 1 := ⟨fun _ => 0, fun _ => -1, fun _ => 0, fun _ => 0⟩

/-- Batch-norm parameters with zero scale and bias one. -/
def bnPos : BNParams 1 := ⟨fun _ => 0, fun _ => 1, fun _ => 0, fun _ => 0⟩

def fusedZero : Fin 1 → Fin 1 → Fin 1 → Fin 1 → ℝ := fun _ _ _ _ => 0

/-- C6 counterexample to the claim as stated: with zero batch-norm scale
and negative bias the pre-normalization row is the zero vector and the
extractor output keeps squared norm zero, not one. -/
theorem extractor_zero_vector_norm :
    dotProd (extractorForward false lW0 lb0 bnNeg fusedZero 0)
      (extractorForward false lW0 lb0 bnNeg fusedZero 0) = 0 ∧
    (0 : ℝ) ≠ 1 := by
  have hpre : ∀ c : Fin 1,
      extractorPreNorm false lW0 lb0 bnNeg fusedZero 0 c = 0 := by
    intro c
    unfold extractorPreNorm batchNorm1d linearMap gapFlatten reluR
    norm_num [bnNeg, lW0, lb0, fusedZero]
  have hfwd : ∀ c : Fin 1,
      extractorForward false lW0 lb0 bnNeg fusedZero 0 c = 0 := by
    intro c
    unfold extractorForward l2normalizeRow
    rw [hpre c]
    simp
  constructor
  · simp [dotProd, hfwd]
  · norm_num

/-- Witness for the amended C6 theorem at concrete parameters whose fuse
tail emits the all-ones row. -/
theorem extractor_unit_norm_check :
    normEps ≤ l2norm (extractorPreNorm false lW0 lb0 bnPos fusedZero 0) ∧
    dotProd (extractorForward false lW0 lb0 bnPos fusedZero 0)
      (extractorForward false lW0 lb0 bnPos fusedZero 0) = 1 := by
  have hpre : ∀ c : Fin 1,
      extractorPreNorm false lW0 lb0 bnPos fusedZero 0 c = 1 := by
    intro c
    unfold extractorPreNorm batchNorm1d linearMap gapFlatten reluR
    norm_num [bnPos, lW0, lb0, fusedZero]
  have hn : l2norm (extractorPreNorm false lW0 lb0 bnPos fusedZero 0) = 1 := by
    unfold l2norm
    rw [show dotProd (extractorPreNorm false lW0 lb0 bnPos fusedZero 0)
        (extractorPreNorm false lW0 lb0 bnPos fusedZero 0) = 1 from by
      simp [dotProd, hpre]]
    exact Real.sqrt_one
  have h : normEps ≤ l2norm (extractorPreNorm false lW0 lb0 bnPos fusedZero 0) := by
    rw [hn]
    norm_num [normEps]
  exact ⟨h, extractor_unit_norm false lW0 lb0 bnPos fusedZero 0 h⟩

/-! StackedGAT (lines 179-213): construction-time checks and the layer
stack. -/

/-- StackedGAT.__init__ as a configuration function: dims is the input
width followed by the hidden widths; every hidden width is asserted
divisible by the head count (an assert failure raises AssertionError, and
the per-layer assert of WeightedMultiHeadGAT.__init__ line 108 repeats
the same condition); the layers are built over the consecutive pairs of
dims, so the result lists each constructed layer's (in, out) widths. -/
def stackedGATLayerDims (inF : ℕ) (hiddenDims : List ℕ) (heads : ℕ) :
    Except PyErr (List (ℕ × ℕ)) :=
  if hiddenDims.all fun h => h % heads = 0 then
    Except.ok (List.zip (inF :: hiddenDims) hiddenDims)
  else Except.error PyErr.assertionError

/-- The heterogeneous module list built by StackedGAT: every layer maps
its input width to heads times its per-head width, feeding the next. -/
inductive GATChain (heads : ℕ) : ℕ → ℕ → Type where
  | nil : (d : ℕ) → GATChain heads d d
  | cons : {din dh dout : ℕ} → GATWeights din heads dh →
      GATChain heads (heads * dh) dout → GATChain heads din dout

/-- StackedGAT.forward (lines 210-213): apply the layers in order, every
layer reading the same adjacency matrix; l indexes the dropout draws of
the current layer. -/
def chainForward {heads n : ℕ} (cfg : GATCfg) (g : ℝ → ℝ)
    (noise : ℕ → GATNoise) :
    (l : ℕ) → {din dout : ℕ} → GATChain heads din dout →
    (Fin n → Fin din → FV) → (Fin n → Fin n → ℝ) →
    Except PyErr (Fin n → Fin dout → FV)
  | _, _, _, GATChain.nil _, x, _ => Except.ok x
  | l, _, _, GATChain.cons w rest, x, adj =>
      match gatForward cfg g (noise l) w x adj with
      | Except.error e => Except.error e
      | Except.ok y => chainForward cfg g noise (l + 1) rest y adj

/-- The whole GAT stack succeeds on finite features and an adjacency
with a positive entry in every row, with a finite output. -/
theorem chainForward_ok_allFin {heads n : ℕ} (cfg : GATCfg) (g : ℝ → ℝ)
    (noise : ℕ → GATNoise) (hres : cfg.residual = true)
    (halpha : 0 < cfg.alpha) {din dout : ℕ} (ch : GATChain heads din dout) :
    ∀ (l : ℕ) (x : Fin n → Fin din → FV) (adj : Fin n → Fin n → ℝ),
      (∀ a k, FV.IsFin (x a k)) → (∀ i, ∃ j, 0 < adj i j) →
      ∃ out, chainForward cfg g noise l ch x adj = Except.ok out ∧
        ∀ i c, FV.IsFin (out i c) := by
  induction ch with
  | nil d =>
      intro l x adj hx _
      exact ⟨x, by simp [chainForward], hx⟩
  | cons w rest ih =>
      intro l x adj hx hadj
      obtain ⟨out, hout, hfin⟩ := ih (l + 1) (gatOut cfg g (noise l) w x adj)
        adj (fun a k => gatOut_isFin cfg g (noise l) w x adj hx halpha hadj a k)
        hadj
      refine ⟨out, ?_, hfin⟩
      rw [show chainForward cfg g noise l (GATChain.cons w rest) x adj
          = match gatForward cfg g (noise l) w x adj with
            | Except.error e => Except.error e
            | Except.ok y => chainForward cfg g noise (l + 1) rest y adj
          from rfl,
        gatForward_ok cfg g (noise l) w x adj hres]
      exact hout

/-- C9 counterexample: constructing StackedGAT with in_features 2048, an
empty hidden-dimension list and 12 heads succeeds, returning zero layers:
no configuration error is raised at construction. -/
theorem stacked_empty_constructs :
    stackedGATLayerDims 2048 [] 12 = Except.ok [] := rfl

/-- C9 (amended): constructing StackedGAT with an empty hidden-dimension
list raises nothing: the divisibility assert loop is vacuous, zero layers
are built, and the resulting forward is the identity on node features. -/
theorem stacked_empty_no_error (inF heads : ℕ) :
    stackedGATLayerDims inF [] heads = Except.ok [] ∧
    ∀ (n d : ℕ) (cfg : GATCfg) (g : ℝ → ℝ) (noise : ℕ → GATNoise) (l : ℕ)
      (x : Fin n → Fin d → FV) (adj : Fin n → Fin n → ℝ),
      chainForward cfg g noise l (@GATChain.nil heads d) x adj = Except.ok x :=
  ⟨rfl, fun _ _ _ _ _ _ _ _ => by simp [chainForward]⟩

/-! FocalLoss (lines 347-358). -/

/-- The logistic sigmoid. -/
def sigmoidR (x : ℝ) : ℝ := 1 / (1 + Real.exp (-x))

/-- F.binary_cross_entropy_with_logits on one element with reduction
none: the numerically stable form the engine computes,
max(x,0) - x t + log(1 + exp(-abs x)). -/
def bceWithLogits (x t : ℝ) : ℝ :=
  max x 0 - x * t + Real.log (1 + Real.exp (-|x|))

/-- FocalLoss.forward (lines 353-358): elementwise
binary_cross_entropy_with_logits, pt = exp(-bce), then the mean over all
elements of alpha (1 - pt)^gamma bce. -/
def focalLoss {B C : ℕ} (alpha gamma : ℝ)
    (inputs targets : Fin B → Fin C → ℝ) : ℝ :=
  (∑ b, ∑ c,
    alpha * (1 - Real.exp (-(bceWithLogits (inputs b c) (targets b c)))) ^ gamma
      * bceWithLogits (inputs b c) (targets b c)) / (B * C)

/-- Modelled from the claim wording for the refinement comparison: binary
cross-entropy computed after internally applying the logistic sigmoid to
the input. -/
def bceAfterSigmoid (x t : ℝ) : ℝ :=
  -(t * Real.log (sigmoidR x) + (1 - t) * Real.log (1 - sigmoidR x))

/-- Modelled from the claim wording: the mean over elements of
alpha (1 - exp(-bce))^gamma bce with bce computed after applying the
sigmoid to the raw inputs. -/
def focalLossSpec {B C : ℕ} (alpha gamma : ℝ)
    (inputs targets : Fin B → Fin C → ℝ) : ℝ :=
  (∑ b, ∑ c,
    alpha * (1 - Real.exp (-(bceAfterSigmoid (inputs b c) (targets b c)))) ^ gamma
      * bceAfterSigmoid (inputs b c) (targets b c)) / (B * C)

/-- The stable with-logits form equals cross-entropy of the
sigmoid-transformed input: the loss treats its input as a raw logit. -/
theorem bceWithLogits_eq_sigmoid_form (x t : ℝ) :
    bceWithLogits x t = bceAfterSigmoid x t := by
  have hpos : (0 : ℝ) < 1 + Real.exp (-x) := by positivity
  have hlogs : Real.log (sigmoidR x) = -Real.log (1 + Real.exp (-x)) := by
    rw [sigmoidR, one_div, Real.log_inv]
  have h1s : 1 - sigmoidR x = Real.exp (-x) / (1 + Real.exp (-x)) := by
    rw [sigmoidR]
    field_simp
  have hlog1s : Real.log (1 - sigmoidR x)
      = -x - Real.log (1 + Real.exp (-x)) := by
    rw [h1s, Real.log_div (Real.exp_ne_zero _) (ne_of_gt hpos), Real.log_exp]
  unfold bceWithLogits bceAfterSigmoid
  rw [hlogs, hlog1s]
  rcases le_or_lt 0 x with hx | hx
  · rw [abs_of_nonneg hx, max_eq_left hx]
    ring
  · rw [abs_of_neg hx, max_eq_right (le_of_lt hx), neg_neg]
    have hsplit : 1 + Real.exp x = Real.exp x * (1 + Real.exp (-x)) := by
      rw [mul_add, mul_one, ← Real.exp_add, add_neg_cancel, Real.exp_zero,
        add_comm]
    rw [hsplit, Real.log_mul (Real.exp_ne_zero _) (ne_of_gt hpos), Real.log_exp]
    ring

/-- C10: FocalLoss.forward returns the mean over elements of
alpha (1 - exp(-bce))^gamma bce where bce is binary cross-entropy of the
internally sigmoid-transformed input, i.e. the loss treats its inputs as
raw pre-sigmoid logits, for every input and target tensor. -/
theorem focalLoss_treats_inputs_as_logits {B C : ℕ} (alpha gamma : ℝ)
    (inputs targets : Fin B → Fin C → ℝ) :
    focalLoss alpha gamma inputs targets
      = focalLossSpec alpha gamma inputs targets := by
  unfold focalLoss focalLossSpec
  simp only [bceWithLogits_eq_sigmoid_form]

/-! Shape-level model of the pipeline over natural numbers, following the
dimension bookkeeping of base_model.py: the resnet50 stem and stage
strides of torchvision, the multi-scale concatenation of
MultiScaleFeatureExtractor, the width chain of StackedGAT and
GCNClassifier, and the batch-square adjacency. -/

/-- The four named stages of the torchvision resnet backbones. -/
inductive ResStage where
  | layer1
  | layer2
  | layer3
  | layer4
deriving DecidableEq

/-- channel_map of _get_total_channels (lines 52-58), identical for
resnet50 and resnet101. -/
def stageChannels : ResStage → ℕ
  | ResStage.layer1 => 256
  | ResStage.layer2 => 512
  | ResStage.layer3 => 1024
  | ResStage.layer4 => 2048

/-- _get_total_channels: sum of the channel counts of the extracted
stages. -/
def getTotalChannels (layers : List ResStage) : ℕ :=
  (layers.map stageChannels).sum

/-- Output spatial extent of a 2-D convolution or pooling window with
kernel k, stride s and padding p (dilation one). -/
def conv2dOut (h k s p : ℕ) : ℕ := (h + 2 * p - k) / s + 1

/-- Spatial extent after one resnet stage: layer1 keeps the extent, the
deeper stages halve it with their stride-two 1 by 1 downsample. -/
def stageSpatial (s : ResStage) (h : ℕ) : ℕ :=
  match s with
  | ResStage.layer1 => h
  | _ => conv2dOut h 1 2 0

/-- The backbone stages in forward order with the spatial extents of
their outputs, starting from the extent entering layer1. -/
def stagesOut : ℕ × ℕ → List ResStage → List (ResStage × ℕ × ℕ)
  | _, [] => []
  | hw, s :: rest =>
      let hw2 := (stageSpatial s hw.1, stageSpatial s hw.2)
      (s, hw2) :: stagesOut hw2 rest

def resStageOrder : List ResStage :=
  [ResStage.layer1, ResStage.layer2, ResStage.layer3, ResStage.layer4]

/-- Shape of MultiScaleFeatureExtractor.forward: stem (7x7 stride-2
conv then 3x3 stride-2 max pool), the four stages in sequence recording
the configured subset, bilinear resize of every recorded map to the last
recorded extent, channel concatenation, then the fuse tail to
(batch, outputDims).  none models a shape error: wrong channel count,
nothing extracted (features[0] would fail), or a concatenated channel
count that does not match the fuse Linear's input width. -/
def extractorShape (layersToExtract : List ResStage) (outputDims : ℕ)
    (B C H W : ℕ) : Option (ℕ × ℕ) :=
  if C ≠ 3 then none else
  let h1 := conv2dOut H 7 2 3
  let w1 := conv2dOut W 7 2 3
  let h2 := conv2dOut h1 3 2 1
  let w2 := conv2dOut w1 3 2 1
  let extracted := (stagesOut (h2, w2) resStageOrder).filter
    fun e => layersToExtract.contains e.1
  match extracted with
  | [] => none
  | _ :: _ =>
      let catC := (extracted.map fun e => stageChannels e.1).sum
      if catC = getTotalChannels layersToExtract then some (B, outputDims)
      else none

/-- Shape of the adjacency matrix built from a batch of embeddings. -/
def adjShapeOf (b : ℕ) : ℕ × ℕ := (b, b)

/-- Shape of StackedGAT over node features (b, d): requires the input
width to match and every hidden width divisible by the head count
(the construction-time asserts); the output width is the last hidden
width (or the input width for an empty stack). -/
def stackedShape (inF : ℕ) (hidden : List ℕ) (heads b d : ℕ) :
    Option (ℕ × ℕ) :=
  if d = inF ∧ hidden.all (fun h => h % heads = 0) then
    some (b, hidden.getLastD inF)
  else none

/-- Shape of GCNClassifier.forward: a chain of graph convolutions from
inF through the hidden widths to the class count. -/
def gcnShape (inF : ℕ) (ncls b d : ℕ) : Option (ℕ × ℕ) :=
  if d = inF then some (b, ncls) else none

/-- Shape of FullModel.forward on an image batch (B, C, H, W) with the
constructor defaults: extractor over layer3 and layer4 into width 2048,
the (B, B) adjacency, StackedGAT 2048 -> 1020 -> 504 -> 252 with 12
heads, LayerNorm of width 252, then the classifier into ncls classes. -/
def fullModelShape (B C H W ncls : ℕ) : Option (ℕ × ℕ) :=
  match extractorShape [ResStage.layer3, ResStage.layer4] 2048 B C H W with
  | none => none
  | some (b1, d1) =>
      match adjShapeOf b1 with
      | (ba, _) =>
        match stackedShape 2048 [1020, 504, 252] 12 ba d1 with
        | none => none
        | some (b2, d2) => if d2 = 252 then gcnShape 252 ncls b2 d2 else none

/-! Value-level model of the remaining FullModel stages and of the
single-image wrapper. -/

/-- F.dropout on a real value: the feature dropout of FullModel line 292,
applied before the adjacency construction. -/
def dropoutR (p : ℝ) (training keep : Bool) (x : ℝ) : ℝ :=
  match training with
  | false => x
  | true => if keep then x * (1 / (1 - p)) else 0

/-- Mean over a LayerNorm row. -/
def lnMean {d : ℕ} (x : Fin d → FV) : FV :=
  (FV.sumL (List.ofFn x)).div (FV.fin (d : ℝ))

/-- Biased variance over a LayerNorm row. -/
def lnVar {d : ℕ} (x : Fin d → FV) : FV :=
  (FV.sumL (List.ofFn fun k =>
    ((x k).sub (lnMean x)).mul ((x k).sub (lnMean x)))).div (FV.fin (d : ℝ))

/-- nn.LayerNorm over one row (gat_norm, constructed line 287, applied
line 304): normalize with the row statistics and epsilon 1e-5, then the
learned affine map. -/
def layerNormFV {d : ℕ} (gamma beta : Fin d → ℝ) (x : Fin d → FV)
    (c : Fin d) : FV :=
  (((FV.fin (gamma c)).mul ((x c).sub (lnMean x))).div
    (((lnVar x).add (FV.fin bnEps)).sqrtv)).add (FV.fin (beta c))

/-- BatchNorm1d channel mean: batch statistics in training mode, the
running mean otherwise. -/
def bnMean {B d : ℕ} (training : Bool) (p : BNParams d)
    (x : Fin B → Fin d → FV) (c : Fin d) : FV :=
  if training then (FV.sumL (List.ofFn fun a => x a c)).div (FV.fin (B : ℝ))
  else FV.fin (p.runMean c)

/-- BatchNorm1d channel variance: biased batch statistics in training
mode, the running variance otherwise. -/
def bnVar {B d : ℕ} (training : Bool) (p : BNParams d)
    (x : Fin B → Fin d → FV) (c : Fin d) : FV :=
  if training then
    (FV.sumL (List.ofFn fun a =>
      ((x a c).sub (bnMean training p x c)).mul
        ((x a c).sub (bnMean training p x c)))).div (FV.fin (B : ℝ))
  else FV.fin (p.runVar c)

/-- The BatchNorm1d of GCNClassifier on model values. -/
def batchNormFV {B d : ℕ} (training : Bool) (p : BNParams d)
    (x : Fin B → Fin d → FV) (b : Fin B) (c : Fin d) : FV :=
  (((FV.fin (p.gamma c)).mul ((x b c).sub (bnMean training p x c))).div
    (((bnVar training p x c).add (FV.fin bnEps)).sqrtv)).add
    (FV.fin (p.beta c))

/-- The edge set handed to the classifier: the nonzero adjacency entries
(FullModel.forward line 309). -/
def edgePresent {B : ℕ} (adj : Fin B → Fin B → ℝ) (i j : Fin B) : Bool :=
  if adj i j ≠ 0 then true else false

/-- One torch_geometric GCNConv as an engine-provided real-valued map
from the edge set and node features, lifted to model values: on finite
inputs it computes the engine's finite result, on non-finite inputs the
result is not a real number. -/
def gcnConvFV {B dIn dOut : ℕ}
    (conv : (Fin B → Fin B → Bool) → (Fin B → Fin dIn → ℝ) → Fin B → Fin dOut → ℝ)
    (edges : Fin B → Fin B → Bool) (x : Fin B → Fin dIn → FV)
    (i : Fin B) (c : Fin dOut) : FV :=
  if h : ∀ a k, FV.IsFin (x a k) then
    FV.fin (conv edges (fun a k => Classical.choose (h a k)) i c)
  else FV.nan

/-- torch.sigmoid on a model value. -/
def sigmoidFV : FV → FV
  | FV.fin r => FV.fin (sigmoidR r)
  | FV.pinf => FV.fin 1
  | FV.ninf => FV.fin 0
  | FV.nan => FV.nan

/-- Learned state of GCNClassifier as built by FullModel (line 277-281):
GCNConv(dIn, dHid), ReLU, BatchNorm1d(dHid), GCNConv(dHid, nc). -/
structure GCNParams (B dIn dHid nc : ℕ) where
  conv1 : (Fin B → Fin B → Bool) → (Fin B → Fin dIn → ℝ) → Fin B → Fin dHid → ℝ
  bn : BNParams dHid
  conv2 : (Fin B → Fin B → Bool) → (Fin B → Fin dHid → ℝ) → Fin B → Fin nc → ℝ

/-- GCNClassifier.forward (lines 236-242): the layer chain followed by
the elementwise sigmoid. -/
def gcnForward {B dIn dHid nc : ℕ} (training : Bool)
    (p : GCNParams B dIn dHid nc) (edges : Fin B → Fin B → Bool)
    (x : Fin B → Fin dIn → FV) (b : Fin B) (c : Fin nc) : FV :=
  sigmoidFV (gcnConvFV p.conv2 edges
    (fun a k => batchNormFV training p.bn
      (fun a2 k2 => FV.relu (gcnConvFV p.conv1 edges x a2 k2)) a k) b c)

/-- Learned state of FullModel with the constructor defaults: the fuse
tail of the extractor (conv backbone maps are inputs), the three GAT
layers 2048 -> 1020 -> 504 -> 252 with 12 heads (per-head widths 85, 42,
21), the engine activation of head_fusion, gat_norm, and the classifier
252 -> 256 -> nc. -/
structure FullModelParams (B nc : ℕ) where
  lW : Fin 2048 → Fin 3072 → ℝ
  lb : Fin 2048 → ℝ
  bnCnn : BNParams 2048
  w1 : GATWeights 2048 12 85
  w2 : GATWeights 1020 12 42
  w3 : GATWeights 504 12 21
  g : ℝ → ℝ
  lnGamma : Fin 252 → ℝ
  lnBeta : Fin 252 → ℝ
  gcn : GCNParams B 252 256 nc

/-- Dropout draws of one forward pass of FullModel: the feature dropout,
the per-layer GAT draws, and the dropout after gat_norm. -/
structure ModelNoise where
  featKeep : ℕ → ℕ → Bool
  gat : ℕ → GATNoise
  gatOutKeep : ℕ → ℕ → Bool

/-- The GAT configuration StackedGAT builds for every layer from the
FullModel defaults: residual and edge weights enabled, leaky slope 0.2,
dropout rate 0.3. -/
def pipelineCfg (training : Bool) : GATCfg := ⟨true, true, training, 0.2, 0.3⟩

/-- The three-layer module list StackedGAT builds from
gat_dims = [1020, 504, 252] with 12 heads. -/
def pipelineChain {B nc : ℕ} (p : FullModelParams B nc) :
    GATChain 12 2048 252 :=
  GATChain.cons p.w1 (GATChain.cons p.w2
    (GATChain.cons p.w3 (GATChain.nil 252)))

/-- The node features entering the graph construction and the GAT stage:
extractor output after the feature dropout of line 292. -/
def pipelineFeats {B nc : ℕ} (training : Bool) (p : FullModelParams B nc)
    (noise : ModelNoise) (fused : Fin B → Fin 3072 → Fin 7 → Fin 7 → ℝ)
    (b : Fin B) (k : Fin 2048) : ℝ :=
  dropoutR 0.3 training (noise.featKeep b.val k.val)
    (extractorForward training p.lW p.lb p.bnCnn fused b k)

/-- FullModel.forward (lines 289-312): extractor, feature dropout,
cosine-similarity adjacency, the GAT stack, gat_norm, leaky ReLU,
dropout, then the classifier over the nonzero-adjacency edge set. -/
def fullModelForward {B nc : ℕ} (training : Bool) (p : FullModelParams B nc)
    (noise : ModelNoise) (fused : Fin B → Fin 3072 → Fin 7 → Fin 7 → ℝ) :
    Except PyErr (Fin B → Fin nc → FV) :=
  match chainForward (pipelineCfg training) p.g noise.gat 0 (pipelineChain p)
      (fun b k => FV.fin (pipelineFeats training p noise fused b k))
      (adjFromFeatures (pipelineFeats training p noise fused)) with
  | Except.error e => Except.error e
  | Except.ok gatRaw =>
      Except.ok (gcnForward training p.gcn
        (edgePresent (adjFromFeatures (pipelineFeats training p noise fused)))
        (fun b c => dropoutFV 0.3 training (noise.gatOutKeep b.val c.val)
          (FV.leakyRelu 0.2 (layerNormFV p.lnGamma p.lnBeta (gatRaw b) c))))

/-- ImageGraphPipeline.forward (lines 331-344): the wrapper forces the
wrapped model into evaluation mode whatever mode it was in
(self.model.eval()), wraps the call in no_grad (which does not change the
computed values), runs the batch of one preprocessed image through
FullModel.forward and strips the batch dimension.  Image decoding,
resizing, tensor conversion and channel normalization are
engine-provided preprocessing upstream of the backbone input. -/
def pipelineWrapperForward {nc : ℕ} (_modelMode : Bool)
    (p : FullModelParams 1 nc) (noise : ModelNoise)
    (fused : Fin 1 → Fin 3072 → Fin 7 → Fin 7 → ℝ) :
    Except PyErr (Fin nc → FV) :=
  match fullModelForward false p noise fused with
  | Except.error e => Except.error e
  | Except.ok out => Except.ok (out 0)

theorem sigmoidR_nonneg (x : ℝ) : 0 ≤ sigmoidR x := by
  unfold sigmoidR
  positivity

theorem sigmoidR_le_one (x : ℝ) : sigmoidR x ≤ 1 := by
  unfold sigmoidR
  rw [div_le_one (by positivity)]
  linarith [Real.exp_pos (-x)]

/-- The affine-over-square-root core shared by LayerNorm and BatchNorm is
finite when the variance statistic is nonnegative (the epsilon keeps the
denominator positive). -/
theorem bn_core_isFin (gv bv xc m s : ℝ) (hs : 0 ≤ s) :
    FV.IsFin ((((FV.fin gv).mul ((FV.fin xc).sub (FV.fin m))).div
      (((FV.fin s).add (FV.fin bnEps)).sqrtv)).add (FV.fin bv)) := by
  have hse : 0 < s + bnEps := by
    have hb : (0 : ℝ) < bnEps := by norm_num [bnEps]
    linarith
  have hsq : 0 < Real.sqrt (s + bnEps) := Real.sqrt_pos.mpr hse
  simp only [FV.sub_fin, FV.mul_fin, FV.add_fin, FV.sqrtv]
  rw [FV.div_fin _ _ (ne_of_gt hsq)]
  simp only [FV.add_fin]
  exact ⟨_, rfl⟩

theorem lnMean_fin {d : ℕ} (v : Fin d → ℝ) (hd : (d : ℝ) ≠ 0) :
    lnMean (fun k => FV.fin (v k)) = FV.fin ((∑ k, v k) / d) := by
  unfold lnMean
  rw [FV.sumL_ofFn_fin, FV.div_fin _ _ hd]

theorem lnVar_fin {d : ℕ} (v : Fin d → ℝ) (hd : (d : ℝ) ≠ 0) :
    lnVar (fun k => FV.fin (v k))
      = FV.fin ((∑ k, (v k - (∑ j, v j) / d) * (v k - (∑ j, v j) / d)) / d) := by
  unfold lnVar
  rw [lnMean_fin v hd]
  rw [show (List.ofFn fun k =>
      ((FV.fin (v k)).sub (FV.fin ((∑ j, v j) / d))).mul
        ((FV.fin (v k)).sub (FV.fin ((∑ j, v j) / d))))
      = List.ofFn fun k =>
        FV.fin ((v k - (∑ j, v j) / d) * (v k - (∑ j, v j) / d))
      from congrArg _ (funext fun k => by rw [FV.sub_fin, FV.mul_fin]),
    FV.sumL_ofFn_fin, FV.div_fin _ _ hd]

/-- LayerNorm of a finite row is finite: the row variance is nonnegative
and the epsilon keeps the denominator away from zero. -/
theorem layerNormFV_isFin {d : ℕ} (gamma beta : Fin d → ℝ) (x : Fin d → FV)
    (hx : ∀ c, FV.IsFin (x c)) (hd : (d : ℝ) ≠ 0) (c : Fin d) :
    FV.IsFin (layerNormFV gamma beta x c) := by
  choose v hv using hx
  have hxx : x = fun k => FV.fin (v k) := funext hv
  subst hxx
  unfold layerNormFV
  rw [lnMean_fin v hd, lnVar_fin v hd]
  exact bn_core_isFin _ _ _ _ _
    (div_nonneg (Finset.sum_nonneg fun k _ => mul_self_nonneg _)
      (Nat.cast_nonneg d))

theorem bnMean_fin_train {B d : ℕ} (p : BNParams d) (v : Fin B → Fin d → ℝ)
    (c : Fin d) (hB : (B : ℝ) ≠ 0) :
    bnMean true p (fun a k => FV.fin (v a k)) c
      = FV.fin ((∑ a, v a c) / B) := by
  rw [show bnMean true p (fun a k => FV.fin (v a k)) c
      = (FV.sumL (List.ofFn fun a => FV.fin (v a c))).div (FV.fin (B : ℝ))
      from rfl,
    FV.sumL_ofFn_fin, FV.div_fin _ _ hB]

theorem bnVar_fin_train {B d : ℕ} (p : BNParams d) (v : Fin B → Fin d → ℝ)
    (c : Fin d) (hB : (B : ℝ) ≠ 0) :
    bnVar true p (fun a k => FV.fin (v a k)) c
      = FV.fin ((∑ a, (v a c - (∑ a2, v a2 c) / B)
          * (v a c - (∑ a2, v a2 c) / B)) / B) := by
  rw [show bnVar true p (fun a k => FV.fin (v a k)) c
      = (FV.sumL (List.ofFn fun a =>
          ((FV.fin (v a c)).sub (bnMean true p (fun a2 k => FV.fin (v a2 k)) c)).mul
            ((FV.fin (v a c)).sub (bnMean true p (fun a2 k => FV.fin (v a2 k)) c)))).div
          (FV.fin (B : ℝ)) from rfl,
    bnMean_fin_train p v c hB]
  rw [show (List.ofFn fun a =>
      ((FV.fin (v a c)).sub (FV.fin ((∑ a2, v a2 c) / B))).mul
        ((FV.fin (v a c)).sub (FV.fin ((∑ a2, v a2 c) / B))))
      = List.ofFn fun a =>
        FV.fin ((v a c - (∑ a2, v a2 c) / B) * (v a c - (∑ a2, v a2 c) / B))
      from congrArg _ (funext fun a => by rw [FV.sub_fin, FV.mul_fin]),
    FV.sumL_ofFn_fin, FV.div_fin _ _ hB]

/-- BatchNorm1d of finite inputs is finite in both modes, provided the
running variance is nonnegative (the engine maintains it so: it starts at
one and is updated with nonnegative batch variances). -/
theorem batchNormFV_isFin {B d : ℕ} (training : Bool) (p : BNParams d)
    (x : Fin B → Fin d → FV) (hx : ∀ a k, FV.IsFin (x a k))
    (hB : (B : ℝ) ≠ 0) (hvar : ∀ c, 0 ≤ p.runVar c) (b : Fin B) (c : Fin d) :
    FV.IsFin (batchNormFV training p x b c) := by
  choose v hv using fun a => hx a
  have hxx : x = fun a k => FV.fin (v a k) :=
    funext fun a => funext fun k => hv a k
  subst hxx
  cases training
  · unfold batchNormFV
    rw [show bnMean false p (fun a k => FV.fin (v a k)) c
        = FV.fin (p.runMean c) from rfl,
      show bnVar false p (fun a k => FV.fin (v a k)) c
        = FV.fin (p.runVar c) from rfl]
    exact bn_core_isFin _ _ _ _ _ (hvar c)
  · unfold batchNormFV
    rw [bnMean_fin_train p v c hB, bnVar_fin_train p v c hB]
    exact bn_core_isFin _ _ _ _ _
      (div_nonneg (Finset.sum_nonneg fun a _ => mul_self_nonneg _)
        (Nat.cast_nonneg B))

theorem gcnConvFV_isFin {B dIn dOut : ℕ}
    (conv : (Fin B → Fin B → Bool) → (Fin B → Fin dIn → ℝ) → Fin B → Fin dOut → ℝ)
    (edges : Fin B → Fin B → Bool) (x : Fin B → Fin dIn → FV)
    (hx : ∀ a k, FV.IsFin (x a k)) (i : Fin B) (c : Fin dOut) :
    FV.IsFin (gcnConvFV conv edges x i c) := by
  unfold gcnConvFV
  rw [dif_pos hx]
  exact ⟨_, rfl⟩

/-- The classifier maps finite node features to finite per-class values
inside the unit interval (final elementwise sigmoid). -/
theorem gcnForward_unitRange {B dIn dHid nc : ℕ} (training : Bool)
    (p : GCNParams B dIn dHid nc) (edges : Fin B → Fin B → Bool)
    (x : Fin B → Fin dIn → FV) (hx : ∀ a k, FV.IsFin (x a k))
    (hB : (B : ℝ) ≠ 0) (hvar : ∀ c, 0 ≤ p.bn.runVar c) (b : Fin B)
    (c : Fin nc) :
    ∃ r, gcnForward training p edges x b c = FV.fin r ∧ 0 ≤ r ∧ r ≤ 1 := by
  have h1 : ∀ a k, FV.IsFin (FV.relu (gcnConvFV p.conv1 edges x a k)) :=
    fun a k => (gcnConvFV_isFin _ _ _ hx a k).relu
  have h2 : ∀ a k, FV.IsFin (batchNormFV training p.bn
      (fun a2 k2 => FV.relu (gcnConvFV p.conv1 edges x a2 k2)) a k) :=
    fun a k => batchNormFV_isFin training p.bn _ h1 hB hvar a k
  obtain ⟨r, hr⟩ := gcnConvFV_isFin p.conv2 edges _ h2 b c
  refine ⟨sigmoidR r, ?_, sigmoidR_nonneg r, sigmoidR_le_one r⟩
  unfold gcnForward
  rw [hr]
  rfl

/-- FullModel.forward succeeds and its output is a finite probability in
the unit interval at every batch element and class: the pipeline
adjacency keeps a positive self edge for every node, so the GAT stack
never produces NaN, and the classifier ends in an elementwise sigmoid. -/
theorem fullModelForward_ok_unitRange {B nc : ℕ} (training : Bool)
    (p : FullModelParams B nc) (noise : ModelNoise)
    (fused : Fin B → Fin 3072 → Fin 7 → Fin 7 → ℝ)
    (hB : (B : ℝ) ≠ 0) (hvar : ∀ c, 0 ≤ p.gcn.bn.runVar c) :
    ∃ out, fullModelForward training p noise fused = Except.ok out ∧
      ∀ b c, ∃ r, out b c = FV.fin r ∧ 0 ≤ r ∧ r ≤ 1 := by
  obtain ⟨gatRaw, hchain, hfin⟩ :=
    chainForward_ok_allFin (pipelineCfg training) p.g noise.gat rfl
      (by norm_num [pipelineCfg]) (pipelineChain p) 0
      (fun b k => FV.fin (pipelineFeats training p noise fused b k))
      (adjFromFeatures (pipelineFeats training p noise fused))
      (fun a k => ⟨_, rfl⟩)
      (fun i => ⟨i, adjFromFeatures_diag_pos _ i⟩)
  have hin : ∀ b c, FV.IsFin (dropoutFV 0.3 training
      (noise.gatOutKeep b.val c.val)
      (FV.leakyRelu 0.2 (layerNormFV p.lnGamma p.lnBeta (gatRaw b) c))) :=
    fun b c => dropoutFV_isFin _ _ _
      (FV.IsFin.leakyRelu _
        (layerNormFV_isFin _ _ _ (fun c2 => hfin b c2) (by norm_num) c))
  refine ⟨gcnForward training p.gcn
      (edgePresent (adjFromFeatures (pipelineFeats training p noise fused)))
      (fun b c => dropoutFV 0.3 training (noise.gatOutKeep b.val c.val)
        (FV.leakyRelu 0.2 (layerNormFV p.lnGamma p.lnBeta (gatRaw b) c))),
    ?_, ?_⟩
  · unfold fullModelForward
    rw [hchain]
  · intro b c
    exact gcnForward_unitRange training p.gcn _ _ hin hB hvar b c

/-- C5: with the constructor defaults and 20 classes, FullModel.forward
on a batch of 4 images of shape 3 x 224 x 224 has output shape (4, 20),
and every output value is a finite real in the unit interval (the
classifier ends in an elementwise sigmoid and no NaN can arise because
every node keeps a positive self edge), for every parameter assignment
whose batch-norm running variance is nonnegative (the engine maintains
this invariant), every dropout draw and both modes. -/
theorem fullmodel_shape_and_unit_range :
    fullModelShape 4 3 224 224 20 = some (4, 20) ∧
    ∀ (training : Bool) (p : FullModelParams 4 20) (noise : ModelNoise)
      (fused : Fin 4 → Fin 3072 → Fin 7 → Fin 7 → ℝ),
      (∀ c, 0 ≤ p.gcn.bn.runVar c) →
      ∃ out, fullModelForward training p noise fused = Except.ok out ∧
        ∀ b c, ∃ r, out b c = FV.fin r ∧ 0 ≤ r ∧ r ≤ 1 := by
  refine ⟨rfl, ?_⟩
  intro training p noise fused hvar
  exact fullModelForward_ok_unitRange training p noise fused (by norm_num) hvar

/-- Zero-initialized weights of one GAT layer at arbitrary dimensions. -/
def gatWZero (inF heads dh : ℕ) : GATWeights inF heads dh :=
  ⟨fun _ _ _ => 0, fun _ _ => 0, fun _ _ => 0, fun _ => 0, fun _ => 0,
   fun _ _ _ => 0, fun _ _ => 0, fun _ _ _ => 0, fun _ => 0⟩

/-- Zero batch-norm state. -/
def bnZero (d : ℕ) : BNParams d := ⟨fun _ => 0, fun _ => 0, fun _ => 0, fun _ => 0⟩

/-- Zero classifier state. -/
def gcnPZero (B dIn dHid nc : ℕ) : GCNParams B dIn dHid nc :=
  ⟨fun _ _ _ _ => 0, bnZero dHid, fun _ _ _ _ => 0⟩

/-- Zero-initialized full model at batch 4 and 20 classes. -/
def fmPZero : FullModelParams 4 20 :=
  ⟨fun _ _ => 0, fun _ => 0, bnZero 2048, gatWZero 2048 12 85,
   gatWZero 1020 12 42, gatWZero 504 12 21, gid, fun _ => 0, fun _ => 0,
   gcnPZero 4 252 256 20⟩

/-- Keep-everything model dropout draw. -/
def noiseZero : ModelNoise := ⟨fun _ _ => true, fun _ => noiseAll, fun _ _ => true⟩

def fusedZ4 : Fin 4 → Fin 3072 → Fin 7 → Fin 7 → ℝ := fun _ _ _ _ => 0

/-- Witness for the C5 theorem at concrete zero-initialized parameters
(whose running variance is zero, hence nonnegative). -/
theorem fullmodel_shape_and_unit_range_check :
    (∀ c, 0 ≤ fmPZero.gcn.bn.runVar c) ∧
    ∃ out, fullModelForward false fmPZero noiseZero fusedZ4 = Except.ok out ∧
      ∀ b c, ∃ r, out b c = FV.fin r ∧ 0 ≤ r ∧ r ≤ 1 := by
  have hvar : ∀ c : Fin 256, 0 ≤ fmPZero.gcn.bn.runVar c := fun c => le_refl 0
  exact ⟨hvar,
    fullmodel_shape_and_unit_range.2 false fmPZero noiseZero fusedZ4 hvar⟩

/-- C7: for a single-image batch the pipeline adjacency has shape (1, 1),
its sole entry is positive (self cosine similarity is at least one half
after rescaling), and the stacked graph-attention stage of the pipeline
succeeds with finite output values (no NaN, no infinity) for every choice
of weights, dropout draws, activation curve, features and mode. -/
theorem single_node_gat_no_nan (training : Bool) (g : ℝ → ℝ)
    (w1 : GATWeights 2048 12 85) (w2 : GATWeights 1020 12 42)
    (w3 : GATWeights 504 12 21) (noise : ℕ → GATNoise)
    (feats : Fin 1 → Fin 2048 → ℝ) :
    adjShapeOf 1 = (1, 1) ∧
    0 < adjFromFeatures feats 0 0 ∧
    ∃ out, chainForward (pipelineCfg training) g noise 0
        (GATChain.cons w1 (GATChain.cons w2
          (GATChain.cons w3 (GATChain.nil 252))))
        (fun b k => FV.fin (feats b k)) (adjFromFeatures feats)
      = Except.ok out ∧ ∀ i c, FV.IsFin (out i c) := by
  refine ⟨rfl, adjFromFeatures_diag_pos feats 0, ?_⟩
  exact chainForward_ok_allFin (pipelineCfg training) g noise rfl
    (by norm_num [pipelineCfg]) _ 0 _ _ (fun a k => ⟨_, rfl⟩)
    (fun i => ⟨i, adjFromFeatures_diag_pos feats i⟩)

/-- C8: the single-image wrapper forces evaluation mode for the whole
call, so its result depends neither on the model's prior train/eval mode
nor on any dropout draw: two forward passes on the same image and
parameters yield identical output. -/
theorem wrapper_two_passes_identical {nc : ℕ} (p : FullModelParams 1 nc)
    (fused : Fin 1 → Fin 3072 → Fin 7 → Fin 7 → ℝ)
    (t1 t2 : Bool) (n1 n2 : ModelNoise) :
    pipelineWrapperForward t1 p n1 fused
      = pipelineWrapperForward t2 p n2 fused := rfl

end
